import Mathlib

/-!
Verification of the masteragent memory service core.

This file gives a shallow embedding, in Lean, of the parts of the backend that
the specification's claims talk about:

* the boundary-aware text chunker (backend/memory_services.py, chunk_text),
  modelled as a fuel-indexed sliding-window loop over character lists, with
  Python slice / rfind / strip semantics spelled out;
* agent credential creation and verification
  (backend/memory_routes.py create_agent and verify_agent_key,
  backend/memory/config.py create_agent, backend/memory/auth.py
  verify_agent_key), together with a full SHA-256 implementation standing in
  for hashlib.sha256;
* the per-agent sliding-window rate limiter
  (backend/memory_tasks.py check_rate_limit);
* a relational model of the memory tables at the granularity of column-name
  lists, faithful to the CREATE TABLE statements of backend/memory_db.py,
  with inserts failing exactly when they name a column the schema lacks;
* the ingest pipeline (backend/memory_routes.py ingest_interaction, and the
  variant in backend/memory/agent.py which adds the rate-limit gate), as a
  function from an environment of service stubs and a database state to a
  result, a new database state and a trace of externally visible events.

Floating-point threshold comparisons in the chunker (char_size * 0.5 and
char_size * 0.3) are modelled as exact rational comparisons
(2 * pos > char_size and 10 * pos > 3 * char_size); these agree with the
Python float comparisons for every realistic chunk size.
-/

/-! ### Python string primitives on character lists -/

/-- Clamp an (possibly negative) Python slice index into [0, n],
negative indices counting from the end, as Python slicing does. -/
def pyIndex (n : Nat) (i : Int) : Nat :=
  if i < 0 then min (((n : Int) + i).toNat) n else min i.toNat n

/-- Python slice text[a:b] on a character list. -/
def pySlice (l : List Char) (a b : Int) : List Char :=
  (l.take (pyIndex l.length b)).drop (pyIndex l.length a)

/-- Python slice text[a:] on a character list. -/
def pySliceFrom (l : List Char) (a : Int) : List Char :=
  l.drop (pyIndex l.length a)

/-- Helper for rfind: highest index at most i where sub occurs, else -1. -/
def rfindFrom (l sub : List Char) : Nat → Int
  | 0 => if sub.isPrefixOf l then 0 else -1
  | i+1 => if sub.isPrefixOf (l.drop (i+1)) then ((i+1 : Nat) : Int) else rfindFrom l sub i

/-- Python str.rfind for a nonempty needle: the largest index where the
needle occurs as a prefix of the remaining suffix, or -1 if absent. -/
def rfind (l sub : List Char) : Int := rfindFrom l sub l.length

/-- The whitespace set of Python str.strip. -/
def isPySpace (c : Char) : Bool :=
  c == ' ' || c == '\t' || c == '\n' || c == '\r' || c == '\x0B' || c == '\x0C'

/-- Python str.strip: drop whitespace from both ends. -/
def pyStrip (l : List Char) : List Char :=
  ((l.dropWhile isPySpace).reverse.dropWhile isPySpace).reverse

/-! ### The chunker (memory_services.py, chunk_text) -/

/-- The sentence terminators scanned by chunk_text, in source order. -/
def sentEnds : List (List Char) :=
  [['.', ' '], ['!', ' '], ['?', ' '], ['.', '\n'], ['!', '\n'], ['?', '\n']]

/-- The sentence-terminator scan of chunk_text: the first terminator whose
last occurrence clears half the window yields a break just past it. -/
def findSentBreak (chunk : List Char) (cs : Nat) : List (List Char) → Option Int
  | [] => none
  | se :: rest =>
    let pos := rfind chunk se
    if 2 * pos > (cs : Int) then some (pos + se.length) else findSentBreak chunk cs rest

/-- Break-point search of chunk_text: paragraph break, then newline, then
sentence end (each accepted past half the window), then space (past 30
percent of the window), else a hard cut at the nominal boundary. -/
def computeBreakPoint (chunk : List Char) (cs : Nat) : Int :=
  let pb := rfind chunk ['\n', '\n']
  if 2 * pb > (cs : Int) then pb + 2
  else
    let nb := rfind chunk ['\n']
    if 2 * nb > (cs : Int) then nb + 1
    else
      match findSentBreak chunk cs sentEnds with
      | some bp => bp
      | none =>
        let sb := rfind chunk [' ']
        if 10 * sb > 3 * (cs : Int) then sb + 1 else (cs : Int)

/-- The sliding-window loop of chunk_text, fuel-indexed because the Python
loop need not terminate.  Each emitted element records the window start, the
break end, and the chunk text appended by the source (stripped for inner
windows, raw for the final tail window).  none means the fuel ran out before
the loop exited. -/
def chunkLoop (text : List Char) (cs co : Nat) :
    Nat → Int → List (Int × Int × List Char) → Option (List (Int × Int × List Char))
  | 0, _, _ => none
  | fuel+1, start, acc =>
    if start < (text.length : Int) then
      if (text.length : Int) ≤ start + (cs : Int) then
        some (acc ++ [(start, (text.length : Int), pySliceFrom text start)])
      else
        let bp := computeBreakPoint (pySlice text start (start + (cs : Int))) cs
        chunkLoop text cs co fuel (start + bp - (co : Int))
          (acc ++ [(start, start + bp, pyStrip (pySlice text start (start + bp)))])
    else some acc

/-- chunk_text from memory_services.py on a character list.  Empty text gives
[]; text within the character budget is returned whole; otherwise the
sliding-window loop runs (with fuel length+1, enough whenever every
iteration advances) and blank chunks are dropped.  none models a
non-terminating loop. -/
def chunk_text (text : List Char) (chunk_size chunk_overlap : Nat) :
    Option (List (List Char)) :=
  if text.isEmpty then some []
  else if text.length ≤ chunk_size * 4 then some [text]
  else
    (chunkLoop text (chunk_size * 4) (chunk_overlap * 4) (text.length + 1) 0 []).map
      (fun acc => (acc.map (fun w => w.2.2)).filter (fun c => !(pyStrip c).isEmpty))

/-- chunk_text on Lean strings, as called from the ingest pipeline. -/
def chunkTextS (text : String) (cs co : Nat) : Option (List String) :=
  (chunk_text text.toList cs co).map (List.map (fun l => ⟨l⟩))

/-! ### Chunker lemmas and claims C8, C9, C10 -/

/-- The chunks c and c2 share no common suffix-prefix overlap longer than m. -/
def sharedOverlapLe (m : Nat) (c c2 : List Char) : Prop :=
  ∀ k : Nat, k ≤ c.length → k ≤ c2.length → c.drop (c.length - k) = c2.take k → k ≤ m

/-- The overlap claim as stated: every two consecutive chunks returned by
chunk_text share a suffix-prefix overlap of at most o*4 characters. -/
def consecutiveOverlapClaim (text : List Char) (s o : Nat) : Prop :=
  ∀ cs, chunk_text text s o = some cs → cs.Chain' (sharedOverlapLe (o * 4))

/-- Relation between consecutive windows recorded by the chunker loop: the
later window starts exactly co characters before the break end of the
earlier one, so the two windows overlap in at most co positions. -/
def windowStep (co : Nat) (w w2 : Int × Int × List Char) : Prop :=
  w2.1 = w.2.1 - (co : Int)

/-- chunk_text reaches a result: trivially for empty or short text,
otherwise the sliding-window loop exits within some finite fuel. -/
def chunkTerminates (text : List Char) (s o : Nat) : Prop :=
  text.isEmpty ∨ text.length ≤ s * 4 ∨
    ∃ fuel, (chunkLoop text (s * 4) (o * 4) fuel 0 []).isSome

/-- The termination claim as stated: chunk_text terminates for every input
string and every chunk_size at least 1, chunk_overlap at least 0. -/
def chunkerTotalClaim : Prop :=
  ∀ (text : List Char) (s o : Nat), 1 ≤ s → chunkTerminates text s o

/-! ### SHA-256, standing in for hashlib.sha256 in create_agent -/

/-- Reduce modulo 2^32. -/
def m32 (x : Nat) : Nat := x % 4294967296

/-- 32-bit right rotation. -/
def rotr32 (n x : Nat) : Nat := m32 (x / 2 ^ n + x % 2 ^ n * 2 ^ (32 - n))

def sha256K : List Nat :=
  [1116352408, 1899447441, 3049323471, 3921009573, 961987163, 1508970993,
   2453635748, 2870763221, 3624381080, 310598401, 607225278, 1426881987,
   1925078388, 2162078206, 2614888103, 3248222580, 3835390401, 4022224774,
   264347078, 604807628, 770255983, 1249150122, 1555081692, 1996064986,
   2554220882, 2821834349, 2952996808, 3210313671, 3336571891, 3584528711,
   113926993, 338241895, 666307205, 773529912, 1294757372, 1396182291,
   1695183700, 1986661051, 2177026350, 2456956037, 2730485921, 2820302411,
   3259730800, 3345764771, 3516065817, 3600352804, 4094571909, 275423344,
   430227734, 506948616, 659060556, 883997877, 958139571, 1322822218,
   1537002063, 1747873779, 1955562222, 2024104815, 2227730452, 2361852424,
   2428436474, 2756734187, 3204031479, 3329325298]

def sha256H0 : List Nat :=
  [1779033703, 3144134277, 1013904242, 2773480762, 1359893119,
   2600822924, 528734635, 1541459225]

def smallSigma0 (x : Nat) : Nat := rotr32 7 x ^^^ rotr32 18 x ^^^ (x >>> 3)

def smallSigma1 (x : Nat) : Nat := rotr32 17 x ^^^ rotr32 19 x ^^^ (x >>> 10)

def bigSigma0 (x : Nat) : Nat := rotr32 2 x ^^^ rotr32 13 x ^^^ rotr32 22 x

def bigSigma1 (x : Nat) : Nat := rotr32 6 x ^^^ rotr32 11 x ^^^ rotr32 25 x

def chFn (x y z : Nat) : Nat := (x &&& y) ^^^ ((x ^^^ 0xffffffff) &&& z)

def majFn (x y z : Nat) : Nat := (x &&& y) ^^^ (x &&& z) ^^^ (y &&& z)

/-- Extend the 16-word message schedule by n further words. -/
def sha256Extend : Nat → List Nat → List Nat
  | 0, w => w
  | n+1, w =>
    let i := w.length
    sha256Extend n (w ++ [m32 (smallSigma1 (w.getD (i-2) 0) + w.getD (i-7) 0 +
      smallSigma0 (w.getD (i-15) 0) + w.getD (i-16) 0)])

/-- One round of the SHA-256 compression function on the 8-word state. -/
def sha256Round (st : List Nat) (kw : Nat × Nat) : List Nat :=
  match st with
  | [a, b, c, d, e, f, g, h] =>
    let t1 := m32 (h + bigSigma1 e + chFn e f g + kw.1 + kw.2)
    let t2 := m32 (bigSigma0 a + majFn a b c)
    [m32 (t1 + t2), a, b, c, m32 (d + t1), e, f, g]
  | other => other

/-- Compress one 16-word block into the hash state. -/
def sha256Block (h : List Nat) (block : List Nat) : List Nat :=
  let w := sha256Extend 48 block
  let st := (sha256K.zip w).foldl sha256Round h
  (h.zip st).map (fun p => m32 (p.1 + p.2))

/-- Big-endian byte rendering of n over len bytes. -/
def toBytesBE (n len : Nat) : List Nat :=
  (List.range len).map (fun i => n / 2 ^ (8 * (len - 1 - i)) % 256)

/-- SHA-256 padding: 0x80, zeros to 56 mod 64, then the 8-byte bit length. -/
def sha256Pad (msg : List Nat) : List Nat :=
  msg ++ [128] ++ List.replicate ((119 - msg.length % 64) % 64) 0 ++
    toBytesBE (8 * msg.length) 8

/-- Group bytes into big-endian 32-bit words. -/
def bytesToWords : List Nat → List Nat
  | b0 :: b1 :: b2 :: b3 :: rest =>
    (b0 * 16777216 + b1 * 65536 + b2 * 256 + b3) :: bytesToWords rest
  | _ => []

/-- Fold the compression function over successive 16-word blocks. -/
def sha256Fold : Nat → List Nat → List Nat → List Nat
  | 0, h, _ => h
  | n+1, h, ws =>
    if ws.isEmpty then h else sha256Fold n (sha256Block h (ws.take 16)) (ws.drop 16)

/-- UTF-8 encoding of one character, as Python str.encode produces. -/
def utf8EncodeChar (c : Char) : List Nat :=
  let n := c.toNat
  if n < 128 then [n]
  else if n < 2048 then [192 ||| (n >>> 6), 128 ||| (n &&& 63)]
  else if n < 65536 then
    [224 ||| (n >>> 12), 128 ||| ((n >>> 6) &&& 63), 128 ||| (n &&& 63)]
  else
    [240 ||| (n >>> 18), 128 ||| ((n >>> 12) &&& 63), 128 ||| ((n >>> 6) &&& 63),
     128 ||| (n &&& 63)]

def hexDigit (n : Nat) : Char := if n < 10 then Char.ofNat (48 + n) else Char.ofNat (87 + n)

def wordToHex (w : Nat) : List Char :=
  (List.range 8).map (fun i => hexDigit (w / 2 ^ (4 * (7 - i)) % 16))

/-- hashlib.sha256(s.encode("utf-8")).hexdigest() -/
def sha256Hex (s : String) : String :=
  let bytes := (s.toList.map utf8EncodeChar).flatten
  let ws := bytesToWords (sha256Pad bytes)
  ⟨((sha256Fold (ws.length + 1) sha256H0 ws).map wordToHex).flatten⟩

/-! ### Agent credentials (memory_routes.py and memory/config.py create_agent,
memory_routes.py and memory/auth.py verify_agent_key) -/

/-- One row of the memory_agents table. -/
structure AgentRow where
  id : String
  name : String
  description : String
  api_key_hash : String
  api_key_preview : String
  access_level : String
  is_active : Bool
  created_at : String
  last_used : Option String
deriving DecidableEq

/-- The preview string built by both create_agent variants:
the first 7 characters, an ellipsis, and the last 4 characters of the key. -/
def apiKeyPreview (key : String) : String :=
  ⟨key.toList.take 7⟩ ++ "..." ++ ⟨key.toList.drop (key.length - 4)⟩

/-- create_agent from memory_routes.py (the router mounted by server.py):
the freshly generated key (passed in here, since token_urlsafe is random) is
stored verbatim in the api_key_hash column. -/
def create_agent_routes (name description access_level apiKey agentId now : String)
    (agents : List AgentRow) : AgentRow × List AgentRow :=
  let row : AgentRow :=
    { id := agentId, name := name, description := description,
      api_key_hash := apiKey, api_key_preview := apiKeyPreview apiKey,
      access_level := access_level, is_active := true, created_at := now,
      last_used := none }
  (row, agents ++ [row])

/-- create_agent from memory/config.py: the SHA-256 hex digest of the key is
stored in the api_key_hash column. -/
def create_agent_config (name description access_level apiKey agentId now : String)
    (agents : List AgentRow) : AgentRow × List AgentRow :=
  let row : AgentRow :=
    { id := agentId, name := name, description := description,
      api_key_hash := sha256Hex apiKey, api_key_preview := apiKeyPreview apiKey,
      access_level := access_level, is_active := true, created_at := now,
      last_used := none }
  (row, agents ++ [row])

/-- Boolean success test for an Except result. -/
def isOkE {ε α : Type} : Except ε α → Bool
  | .ok _ => true
  | .error _ => false

/-- verify_agent_key, identical in memory_routes.py and memory/auth.py: a
missing header is a 401; otherwise the presented key is looked up verbatim
against api_key_hash among active agents (no digest is computed); on a hit,
last_used is set and the pre-update row is returned. -/
def verify_agent_key (xApiKey : Option String) (now : String)
    (agents : List AgentRow) : Except Nat (AgentRow × List AgentRow) :=
  match xApiKey with
  | none => .error 401
  | some key =>
    match agents.find? (fun a => a.api_key_hash == key && a.is_active) with
    | none => .error 401
    | some a =>
      .ok (a, agents.map (fun r =>
        if r.id == a.id then { r with last_used := some now } else r))

/-- The credential claim as stated: the persisted api_key_hash of a created
agent is the SHA-256 hex digest of the returned raw key, and verification
matches a presented raw key by computing and comparing that digest. -/
def sha256CredentialClaim : Prop :=
  (∀ name description access apiKey agentId now agents,
    (create_agent_routes name description access apiKey agentId now agents).1.api_key_hash
      = sha256Hex apiKey) ∧
  (∀ key now agents,
    isOkE (verify_agent_key (some key) now agents)
      = agents.any (fun a => a.api_key_hash == sha256Hex key && a.is_active))

/-! ### Rate limiting (memory_tasks.py check_rate_limit) -/

/-- The memory_settings columns the modelled operations consult
(defaults as in memory_db.py). -/
structure MemSettings where
  chunk_size : Nat
  chunk_overlap : Nat
  pii_scrubbing_enabled : Bool
  auto_share_scrubbed : Bool
  rate_limit_enabled : Bool
  rate_limit_per_minute : Nat
deriving DecidableEq

/-- check_rate_limit from memory_tasks.py for one agent.  Wall-clock
timestamps are modelled as integers (any fixed time unit; 60 stands for the
one-minute window).  Disabled limiting admits without touching the window;
otherwise entries older than now - 60 are evicted, the request is rejected
while the remaining count reaches the limit, and otherwise now is appended. -/
def check_rate_limit (settings : MemSettings) (window : List Int) (now : Int) :
    Bool × List Int :=
  if !settings.rate_limit_enabled then (true, window)
  else
    let kept := window.filter (fun t => decide (now - 60 < t))
    if settings.rate_limit_per_minute ≤ kept.length then (false, kept)
    else (true, kept ++ [now])

/-- Run a sequence of same-agent requests through check_rate_limit starting
from the given window state; returns the timestamps of admitted requests. -/
def processRequests (settings : MemSettings) (window : List Int) :
    List Int → List Int
  | [] => []
  | t :: ts =>
    let r := check_rate_limit settings window t
    if r.1 then t :: processRequests settings r.2 ts
    else processRequests settings r.2 ts

/-- Number of the given timestamps falling in the window [a, a + 60). -/
def windowCount (l : List Int) (a : Int) : Nat :=
  (l.filter (fun t => decide (a ≤ t) && decide (t < a + 60))).length

/-! ### Relational model (memory_db.py) at column-name granularity -/

/-- A stored row: column name / value pairs in insertion order. -/
abbrev DBRow := List (String × String)

/-- Columns of the memories table (memory_db.py CREATE TABLE memories). -/
def memoriesSchema : List String :=
  ["id", "user_id", "timestamp", "channel", "raw_text", "summary_text",
   "has_documents", "is_shared", "entities_json", "metadata_json",
   "vector_id", "created_at", "updated_at"]

/-- Columns of memory_documents (memory_db.py). -/
def memoryDocumentsSchema : List String :=
  ["id", "memory_id", "filename", "file_type", "file_size", "parsed_text",
   "chunk_count", "created_at"]

/-- Columns of memories_shared (memory_db.py): the text column is named
pii_stripped_text, and there is no timestamp or has_documents column. -/
def memoriesSharedSchema : List String :=
  ["id", "original_memory_id", "pii_stripped_text", "summary_text", "channel",
   "entities_json", "metadata_json", "vector_id", "created_at"]

/-- Columns of memory_audit_log (memory_db.py). -/
def memoryAuditLogSchema : List String :=
  ["id", "agent_id", "action", "resource_type", "resource_id",
   "details_json", "timestamp"]

/-- INSERT at column-name granularity: appends the row, or fails exactly
when a named column is absent from the schema (sqlite3 raises
OperationalError then) or the value count mismatches. -/
def insertRow (schema cols vals : List String) (rows : List DBRow) :
    Except String (List DBRow) :=
  if cols.all (fun c => schema.contains c) && cols.length == vals.length then
    .ok (rows ++ [cols.zip vals])
  else .error "no such column"

/-- The relational tables the modelled operations touch. -/
structure MemoryDB where
  memories : List DBRow
  memory_documents : List DBRow
  memories_shared : List DBRow
  memory_audit_log : List DBRow
deriving DecidableEq

/-- SQLite semantics of DELETE FROM memories WHERE id = mid under the
declared constraints: every connection runs PRAGMA foreign_keys = ON
(memory_db.py get_memory_db), and both memory_documents.memory_id and
memories_shared.original_memory_id are declared REFERENCES memories(id)
ON DELETE CASCADE, so deleting the origin row also deletes the child rows
of both tables. -/
def deleteMemoryCascade (db : MemoryDB) (mid : String) : MemoryDB :=
  { memories := db.memories.filter (fun r => !(r.lookup "id" == some mid)),
    memory_documents :=
      db.memory_documents.filter (fun r => !(r.lookup "memory_id" == some mid)),
    memories_shared :=
      db.memories_shared.filter (fun r => !(r.lookup "original_memory_id" == some mid)),
    memory_audit_log := db.memory_audit_log }

/-! ### The ingest pipeline (memory_routes.py / memory/agent.py
ingest_interaction) -/

/-- An uploaded file part. -/
structure FileUpload where
  filename : String
  content_type : String
  content : String
deriving DecidableEq

/-- The InteractionResponse fields the claims consult. -/
structure InteractionResp where
  id : String
  timestamp : String
  channel : String
  summary_text : String
  has_documents : Bool
deriving DecidableEq

/-- Externally visible events of one ingest request, in execution order. -/
inductive IngestEvent
  | commit
  | upsert (collection : String) (pointId : String)
  | auditInsert
deriving DecidableEq

/-- The environment of one ingest request: the settings row, the generated
identifiers and timestamp, and the outcome of each external service call
(summarization, redaction, embedding, document parsing), plus whether the
audit-log write fails. -/
structure IngestEnv where
  settings : MemSettings
  now : String
  memoryId : String
  sharedMemoryId : String
  auditId : String
  docIds : List String
  summarize : String → String
  scrub : String → String
  embedBatch : List String → List (List Int)
  parseDoc : FileUpload → String
  auditFails : Bool

/-- The composite text: the original text followed by a delimited block for
each file whose parse produced non-empty text. -/
def compositeText (env : IngestEnv) (text : String) (files : List FileUpload) :
    String :=
  files.foldl (fun acc f =>
    let p := env.parseDoc f
    if p ≠ "" then acc ++ "\n\n---\n[Document: " ++ f.filename ++ "]\n" ++ p
    else acc) text

/-- The parsed_docs records accumulated during ingest:
(generated doc id, file, parsed text), one per file in order. -/
def parsedDocsOf (env : IngestEnv) (files : List FileUpload) :
    List (String × FileUpload × String) :=
  files.enum.map (fun p => (env.docIds.getD p.1 "", p.2, env.parseDoc p.2))

/-- Column list used by the INSERT INTO memories statement of ingest. -/
def memoriesInsertCols : List String :=
  ["id", "timestamp", "channel", "raw_text", "summary_text", "has_documents",
   "is_shared", "entities_json", "metadata_json", "created_at", "updated_at"]

/-- Column list used by the INSERT INTO memory_documents statement. -/
def documentsInsertCols : List String :=
  ["id", "memory_id", "filename", "file_type", "file_size", "parsed_text",
   "created_at"]

/-- Column list used by the INSERT INTO memories_shared statement of ingest:
it names timestamp, scrubbed_text and has_documents, none of which exist in
memoriesSharedSchema. -/
def sharedInsertCols : List String :=
  ["id", "original_memory_id", "timestamp", "channel", "scrubbed_text",
   "summary_text", "has_documents", "entities_json", "metadata_json",
   "created_at"]

/-- Column list used by the INSERT INTO memory_audit_log statement. -/
def auditInsertCols : List String :=
  ["id", "agent_id", "action", "resource_type", "resource_id", "details_json",
   "timestamp"]

/-- Insert the Document rows of an ingest, in order. -/
def insertDocs (now memoryId : String) :
    List (String × FileUpload × String) → List DBRow → Except String (List DBRow)
  | [], rows => .ok rows
  | (did, f, ptext) :: rest, rows =>
    match insertRow memoryDocumentsSchema documentsInsertCols
      [did, memoryId, f.filename, f.content_type, toString f.content.length,
       ptext, now] rows with
    | .error e => .error e
    | .ok rows2 => insertDocs now memoryId rest rows2

/-- The vector points pushed to the shared collection from inside the
relational transaction: one upsert per scrubbed chunk with a non-empty
embedding, against collection memory_shared (note: not
memory_interactions_shared). -/
def sharedUpserts (sharedId : String) (chunks : List String)
    (embeddings : List (List Int)) : List IngestEvent :=
  (chunks.zip embeddings).enum.filterMap (fun p =>
    if p.2.2.isEmpty then none
    else some (.upsert "memory_shared" (sharedId ++ "_" ++ toString p.1)))

/-- The vector points pushed to the private collection after the commit. -/
def privateUpserts (memoryId : String) (chunks : List String)
    (embeddings : List (List Int)) : List IngestEvent :=
  (chunks.zip embeddings).enum.filterMap (fun p =>
    if p.2.2.isEmpty then none
    else some (.upsert "memory_interactions" (memoryId ++ "_" ++ toString p.1)))

/-- The relational transaction of ingest_interaction: the memories row, the
document rows, then — when pii scrubbing and auto-share are both on — the
memories_shared row followed, still inside the transaction, by the
shared-collection upserts.  Returns the updated tables plus the events
emitted inside the transaction, or the first SQL error (everything rolls
back then). -/
def ingestTxn (env : IngestEnv) (db : MemoryDB)
    (text channel entities metadata summary piiText piiSummary : String)
    (docs : List (String × FileUpload × String))
    (scrubbedChunks : List String) (scrubbedEmbeddings : List (List Int)) :
    Except String (MemoryDB × List IngestEvent) :=
  match insertRow memoriesSchema memoriesInsertCols
    [env.memoryId, env.now, channel, text, summary,
     (if docs.isEmpty then "0" else "1"), "0", entities, metadata, env.now,
     env.now] db.memories with
  | .error e => .error e
  | .ok mems =>
    match insertDocs env.now env.memoryId docs db.memory_documents with
    | .error e => .error e
    | .ok docRows =>
      if env.settings.pii_scrubbing_enabled && env.settings.auto_share_scrubbed then
        match insertRow memoriesSharedSchema sharedInsertCols
          [env.sharedMemoryId, env.memoryId, env.now, channel, piiText,
           piiSummary, (if docs.isEmpty then "0" else "1"), entities, metadata,
           env.now] db.memories_shared with
        | .error e => .error e
        | .ok sharedRows =>
          .ok
            ({ db with memories := mems, memory_documents := docRows, memories_shared := sharedRows },
             sharedUpserts env.sharedMemoryId scrubbedChunks scrubbedEmbeddings)
      else
        .ok ({ db with memories := mems, memory_documents := docRows }, [])

/-- log_audit from memory_routes.py / memory/auth.py: appends one audit row
in its own transaction.  No exception handling wraps it, so a failure (an
I/O or constraint error, modelled by auditFails) propagates to the caller. -/
def log_audit (env : IngestEnv) (agentId action : String)
    (resourceType resourceId : Option String) (details : String)
    (rows : List DBRow) : Except String (List DBRow) :=
  if env.auditFails then .error "audit write failed"
  else insertRow memoryAuditLogSchema auditInsertCols
    [env.auditId, agentId, action, resourceType.getD "", resourceId.getD "",
     details, env.now] rows

/-- ingest_interaction from memory_routes.py (the router mounted by
server.py; the memory/agent.py variant adds the rate-limit gate in front,
see agent_ingest_interaction).  Returns none when a chunk_text call does not
terminate; otherwise the HTTP outcome, the database after the request, and
the trace of events (upserts, the commit, the audit insert) in execution
order. -/
def ingest_interaction (env : IngestEnv) (db : MemoryDB)
    (agentId text channel entities metadata : String)
    (files : List FileUpload) :
    Option (Except Nat InteractionResp × MemoryDB × List IngestEvent) :=
  let docs := parsedDocsOf env files
  let allText := compositeText env text files
  let summary := env.summarize allText
  match chunkTextS allText env.settings.chunk_size env.settings.chunk_overlap with
  | none => none
  | some chunks =>
    let embeddings := if chunks.isEmpty then [] else env.embedBatch chunks
    let piiText :=
      if env.settings.pii_scrubbing_enabled then env.scrub allText else ""
    let piiSummary :=
      if env.settings.pii_scrubbing_enabled then
        (if summary ≠ "" then env.scrub summary else "") else ""
    match (if env.settings.pii_scrubbing_enabled then
        chunkTextS piiText env.settings.chunk_size env.settings.chunk_overlap
      else some []) with
    | none => none
    | some scrubbedChunks =>
      let scrubbedEmbeddings :=
        if scrubbedChunks.isEmpty then [] else env.embedBatch scrubbedChunks
      match ingestTxn env db text channel entities metadata summary piiText
          piiSummary docs scrubbedChunks scrubbedEmbeddings with
      | .error _ => some (.error 500, db, [])
      | .ok (db2, sharedEvs) =>
        match log_audit env agentId "ingest_interaction" (some "memory")
            (some env.memoryId) ("\x7b\"channel\": \"" ++ channel ++ "\"\x7d")
            db2.memory_audit_log with
        | .error _ =>
          some (.error 500, db2,
            sharedEvs ++ IngestEvent.commit ::
              privateUpserts env.memoryId chunks embeddings)
        | .ok auditRows =>
          some
            (.ok { id := env.memoryId, timestamp := env.now, channel := channel, summary_text := summary, has_documents := !docs.isEmpty },
             { db2 with memory_audit_log := auditRows },
             sharedEvs ++ IngestEvent.commit ::
               (privateUpserts env.memoryId chunks embeddings ++
                 [IngestEvent.auditInsert]))

/-- ingest_interaction from memory/agent.py: the same pipeline gated by
check_rate_limit; a rejected request raises 429 before any side effect. -/
def agent_ingest_interaction (env : IngestEnv) (rateWindow : List Int)
    (tNow : Int) (db : MemoryDB) (agentId text channel entities metadata : String)
    (files : List FileUpload) :
    Option (Except Nat InteractionResp × MemoryDB × List IngestEvent) × List Int :=
  let r := check_rate_limit env.settings rateWindow tNow
  if r.1 then
    (ingest_interaction env db agentId text channel entities metadata files, r.2)
  else (some (.error 429, db, []), r.2)

/-- Boolean test for an upsert event. -/
def isUpsertEv : IngestEvent → Bool
  | .upsert _ _ => true
  | _ => false

/-- Every upsert event in the trace is preceded by the commit event. -/
def commitPrecedesUpserts (tr : List IngestEvent) : Prop :=
  ∀ j (hj : j < tr.length), isUpsertEv (tr.get ⟨j, hj⟩) = true →
    ∃ i, ∃ (hi : i < tr.length), i < j ∧ tr.get ⟨i, hi⟩ = IngestEvent.commit

/-- The empty database. -/
def dbEmpty : MemoryDB := ⟨[], [], [], []⟩

deriving instance DecidableEq for Except

/-- Environment for the shared-projection scenario: pii_scrubbing_enabled
and auto_share_scrubbed both on, every service succeeding. -/
def envC1 : IngestEnv :=
  { settings := { chunk_size := 400, chunk_overlap := 80, pii_scrubbing_enabled := true, auto_share_scrubbed := true, rate_limit_enabled := false, rate_limit_per_minute := 60 },
    now := "t0", memoryId := "m1", sharedMemoryId := "s1", auditId := "au1",
    docIds := [], summarize := fun _ => "sum", scrub := fun t => t,
    embedBatch := fun l => l.map (fun _ => [1]), parseDoc := fun _ => "",
    auditFails := false }

/-- Environment for the commit-ordering witness: plain ingest with one
embedded chunk. -/
def envC3 : IngestEnv :=
  { settings := { chunk_size := 400, chunk_overlap := 80, pii_scrubbing_enabled := false, auto_share_scrubbed := false, rate_limit_enabled := false, rate_limit_per_minute := 60 },
    now := "t0", memoryId := "m1", sharedMemoryId := "s1", auditId := "au1",
    docIds := [], summarize := fun _ => "sum", scrub := fun t => t,
    embedBatch := fun l => l.map (fun _ => [1]), parseDoc := fun _ => "",
    auditFails := false }

/-- The audit-isolation claim as stated: whenever an ingest whose primary
transaction committed returns, it returns success (an audit failure having
been caught and logged). -/
def auditFailureIsolatedClaim : Prop :=
  ∀ (env : IngestEnv) (db : MemoryDB)
    (agentId text channel entities metadata : String) (files : List FileUpload)
    (out : Except Nat InteractionResp × MemoryDB × List IngestEvent),
    ingest_interaction env db agentId text channel entities metadata files
      = some out →
    IngestEvent.commit ∈ out.2.2 → isOkE out.1 = true

/-- Environment for the audit-failure scenario: plain ingest, audit write
failing, embeddings empty. -/
def envC4 : IngestEnv :=
  { settings := { chunk_size := 400, chunk_overlap := 80, pii_scrubbing_enabled := false, auto_share_scrubbed := false, rate_limit_enabled := false, rate_limit_per_minute := 60 },
    now := "t0", memoryId := "m1", sharedMemoryId := "s1", auditId := "au1",
    docIds := [], summarize := fun _ => "sum", scrub := fun t => t,
    embedBatch := fun _ => [], parseDoc := fun _ => "",
    auditFails := true }

/-- The empty-channel claim as stated: an ingest whose channel is the empty
string fails and creates no Memory row. -/
def emptyChannelRejectedClaim : Prop :=
  ∀ (env : IngestEnv) (db : MemoryDB) (agentId text entities metadata : String)
    (files : List FileUpload)
    (out : Except Nat InteractionResp × MemoryDB × List IngestEvent),
    ingest_interaction env db agentId text "" entities metadata files = some out →
    isOkE out.1 = false ∧ out.2.1.memories = db.memories

/-- Environment for the empty-channel scenario: plain ingest, everything
succeeding. -/
def envC7 : IngestEnv :=
  { settings := { chunk_size := 400, chunk_overlap := 80, pii_scrubbing_enabled := false, auto_share_scrubbed := false, rate_limit_enabled := false, rate_limit_per_minute := 60 },
    now := "t0", memoryId := "m1", sharedMemoryId := "s1", auditId := "au1",
    docIds := [], summarize := fun _ => "sum", scrub := fun t => t,
    embedBatch := fun _ => [], parseDoc := fun _ => "",
    auditFails := false }

/-- The rate-limit claim as stated, instantiated at window capacity 0 (a
direct consequence of the claim: every request is then beyond the limit,
must be rejected, and must create no Memory row). -/
def rateLimitEnforcedClaim : Prop :=
  ∀ (env : IngestEnv) (db : MemoryDB)
    (agentId text channel entities metadata : String) (files : List FileUpload)
    (out : Except Nat InteractionResp × MemoryDB × List IngestEvent),
    env.settings.rate_limit_enabled = true →
    env.settings.rate_limit_per_minute = 0 →
    ingest_interaction env db agentId text channel entities metadata files
      = some out →
    isOkE out.1 = false ∧ out.2.1.memories = db.memories

/-- Environment for the rate-limit gate witness: limiting enabled with
capacity 1. -/
def envC5w : IngestEnv :=
  { settings := { chunk_size := 400, chunk_overlap := 80, pii_scrubbing_enabled := false, auto_share_scrubbed := false, rate_limit_enabled := true, rate_limit_per_minute := 1 },
    now := "t0", memoryId := "m1", sharedMemoryId := "s1", auditId := "au1",
    docIds := [], summarize := fun _ => "sum", scrub := fun t => t,
    embedBatch := fun _ => [], parseDoc := fun _ => "",
    auditFails := false }

/-- Environment for the rate-limit scenario: limiting enabled with capacity
0, plain ingest otherwise. -/
def envC5 : IngestEnv :=
  { settings := { chunk_size := 400, chunk_overlap := 80, pii_scrubbing_enabled := false, auto_share_scrubbed := false, rate_limit_enabled := true, rate_limit_per_minute := 0 },
    now := "t0", memoryId := "m1", sharedMemoryId := "s1", auditId := "au1",
    docIds := [], summarize := fun _ => "sum", scrub := fun t => t,
    embedBatch := fun _ => [], parseDoc := fun _ => "",
    auditFails := false }

/-- The no-cascade claim as stated: deleting an origin Memory row leaves
every memories_shared row unchanged. -/
def sharedSurvivesDeleteClaim : Prop :=
  ∀ (db : MemoryDB) (mid : String),
    (deleteMemoryCascade db mid).memories_shared = db.memories_shared

/-- A two-row database: one origin memory and one shared projection of it. -/
def dbC6 : MemoryDB :=
  { memories := [[("id", "m1"), ("channel", "call")]],
    memory_documents := [],
    memories_shared := [[("id", "s1"), ("original_memory_id", "m1"),
      ("pii_stripped_text", "redacted")]],
    memory_audit_log := [] }

/-- A database with a shared row referencing a different origin. -/
def dbC6w : MemoryDB :=
  { memories := [[("id", "m1")]],
    memory_documents := [],
    memories_shared := [[("original_memory_id", "m2")]],
    memory_audit_log := [] }

/-! ### Theorems -/

theorem chunk_text_small (l : List Char) (s o : Nat) (hne : l ≠ [])
    (hlen : l.length ≤ s * 4) : chunk_text l s o = some [l] := by
  unfold chunk_text
  rw [if_neg (by simpa [List.isEmpty_iff] using hne), if_pos hlen]

/-- Claim C9: for every non-empty text of character length at most 4 times
the chunk size, chunk_text returns exactly the one-element list containing
the text unchanged. -/
theorem chunk_text_whole_when_short (t : String) (s o : Nat) (hs : 0 < s)
    (hne : t ≠ "") (hlen : t.length ≤ 4 * s) : chunkTextS t s o = some [t] := by
  obtain ⟨data⟩ := t
  have hne' : data ≠ [] := by
    intro h; exact hne (by simp [h])
  have hlen' : data.length ≤ s * 4 := by
    simpa [String.length, Nat.mul_comm] using hlen
  unfold chunkTextS
  rw [show (String.mk data).toList = data from rfl, chunk_text_small data s o hne' hlen']
  rfl

/-- Witness for C9 at a concrete input. -/
theorem chunk_text_whole_when_short_witness : chunkTextS "ab" 1 0 = some ["ab"] :=
  chunk_text_whole_when_short "ab" 1 0 (by decide) (by decide) (by decide)

/-- Claim C8 (counterexample): on the 12-character text of repeated letters
with chunk size 2 and overlap 1, chunk_text returns two identical chunks of
8 characters, which share a suffix-prefix overlap of 8 > 1*4 characters. -/
theorem chunk_overlap_claim_false :
    ¬ consecutiveOverlapClaim (List.replicate 12 'a') 2 1 := by
  intro h
  have hc : chunk_text (List.replicate 12 'a') 2 1 =
      some [List.replicate 8 'a', List.replicate 8 'a'] := by decide
  have hch := h _ hc
  rw [List.chain'_cons] at hch
  have h8 := hch.1 8 (by decide) (by decide) (by decide)
  exact absurd h8 (by decide)

theorem chunkLoop_window_chain (text : List Char) (cs co : Nat) :
    ∀ (fuel : Nat) (start : Int) (acc ws : List (Int × Int × List Char)),
      acc.Chain' (windowStep co) →
      (∀ w ∈ acc.getLast?, start = w.2.1 - (co : Int)) →
      chunkLoop text cs co fuel start acc = some ws →
      ws.Chain' (windowStep co) := by
  intro fuel
  induction fuel with
  | zero =>
    intro start acc ws _ _ h
    exact absurd h (by simp [chunkLoop])
  | succ n ih =>
    intro start acc ws hchain hlast h
    rw [chunkLoop] at h
    split at h
    · split at h
      · cases h
        rw [List.chain'_append]
        refine ⟨hchain, List.chain'_singleton _, ?_⟩
        intro x hx y hy
        rw [List.head?_cons, Option.mem_some_iff] at hy
        subst hy
        simp only [windowStep]
        exact hlast x hx
      · refine ih _ _ _ ?_ ?_ h
        · rw [List.chain'_append]
          refine ⟨hchain, List.chain'_singleton _, ?_⟩
          intro x hx y hy
          rw [List.head?_cons, Option.mem_some_iff] at hy
          subst hy
          simp only [windowStep]
          exact hlast x hx
        · intro w hw
          rw [List.getLast?_concat, Option.mem_some_iff] at hw
          subst hw
          rfl
    · cases h
      exact hchain

/-- Claim C8 (amended): in the window sequence produced by the chunker's
sliding loop, each window starts exactly overlap*4 characters before the
break end of the previous one, so consecutive windows of the text overlap
in at most o*4 character positions.  (As strings, consecutive chunks can
share a longer common suffix-prefix when the text repeats itself.) -/
theorem chunk_windows_overlap (text : List Char) (s o fuel : Nat)
    (ws : List (Int × Int × List Char))
    (h : chunkLoop text (s * 4) (o * 4) fuel 0 [] = some ws) :
    ws.Chain' (windowStep (o * 4)) :=
  chunkLoop_window_chain text (s * 4) (o * 4) fuel 0 [] ws (by simp)
    (by intro w hw; simp at hw) h

/-- Witness for the amended C8 at a concrete input. -/
theorem chunk_windows_overlap_witness :
    ([(0, 8, List.replicate 8 'a'), (4, 12, List.replicate 8 'a')] :
      List (Int × Int × List Char)).Chain' (windowStep (1 * 4)) :=
  chunk_windows_overlap (List.replicate 12 'a') 2 1 13 _ (by decide)

theorem chunkLoop_stuck_on_repeat :
    ∀ (fuel : Nat) (acc : List (Int × Int × List Char)),
      chunkLoop (List.replicate 5 'a') 4 4 fuel 0 acc = none := by
  intro fuel
  induction fuel with
  | zero => intro acc; rfl
  | succ n ih =>
    intro acc
    rw [chunkLoop]
    rw [if_pos (by decide), if_neg (by decide)]
    have hbp : computeBreakPoint
        (pySlice (List.replicate 5 'a') 0 (0 + (4 : Nat))) 4 = 4 := by decide
    simp only [hbp]
    have harg : (0 : Int) + 4 - (4 : Nat) = 0 := by decide
    rw [harg]
    exact ih _

/-- Claim C10 (counterexample): with chunk_size 1 and chunk_overlap 1 on the
five-character text of repeated letters, the window always breaks at the
hard cut 4 and the next start is 4 - 4 = 0, so the loop never advances and
chunk_text does not terminate. -/
theorem chunker_total_claim_false : ¬ chunkerTotalClaim := by
  intro h
  rcases h (List.replicate 5 'a') 1 1 (le_refl 1) with h1 | h2 | ⟨fuel, hf⟩
  · exact absurd h1 (by decide)
  · exact absurd h2 (by decide)
  · rw [show (1 : Nat) * 4 = 4 from rfl] at hf
    rw [chunkLoop_stuck_on_repeat fuel []] at hf
    exact absurd hf (by decide)

theorem findSentBreak_bound (chunk : List Char) (cs : Nat) :
    ∀ (l : List (List Char)), (∀ se ∈ l, se.length = 2) →
      ∀ bp, findSentBreak chunk cs l = some bp →
        ∃ pos : Int, 2 * pos > (cs : Int) ∧ bp = pos + 2 := by
  intro l
  induction l with
  | nil => intro _ bp h; exact absurd h (by simp [findSentBreak])
  | cons se rest ih =>
    intro hl bp h
    rw [findSentBreak] at h
    split at h
    · refine ⟨rfind chunk se, by assumption, ?_⟩
      have : se.length = 2 := hl se (by simp)
      rw [Option.some_inj] at h
      omega
    · exact ih (fun x hx => hl x (by simp [hx])) bp h

theorem computeBreakPoint_ge (chunk : List Char) (cs co : Nat)
    (hcs : 0 < cs) (hco : 10 * co ≤ 3 * cs) :
    (co : Int) + 1 ≤ computeBreakPoint chunk cs := by
  simp only [computeBreakPoint]
  cases hsb : findSentBreak chunk cs sentEnds with
  | none => dsimp only; split_ifs with h1 h2 h3 <;> omega
  | some bp =>
    obtain ⟨pos, hpos, rfl⟩ :=
      findSentBreak_bound chunk cs sentEnds (by decide) bp hsb
    dsimp only; split_ifs with h1 h2 <;> omega

theorem chunkLoop_total (text : List Char) (cs co : Nat)
    (hcs : 0 < cs) (hco : 10 * co ≤ 3 * cs) :
    ∀ (fuel : Nat) (start : Int) (acc : List (Int × Int × List Char)),
      ((text.length : Int) - start).toNat < fuel →
      (chunkLoop text cs co fuel start acc).isSome := by
  intro fuel
  induction fuel with
  | zero => intro start acc h; omega
  | succ n ih =>
    intro start acc hfuel
    rw [chunkLoop]
    split
    · split
      · simp
      · have hbp := computeBreakPoint_ge (pySlice text start (start + (cs : Int))) cs co hcs hco
        apply ih
        omega
    · simp

/-- Claim C10 (amended): chunk_text terminates and returns a finite list
whenever 10 * chunk_overlap ≤ 3 * chunk_size (every break point then clears
the overlap by at least one character, so the window always advances); this
covers the defaults chunk_size 400 and chunk_overlap 80.  For larger
overlaps the loop can fail to advance, as the counterexample shows. -/
theorem chunk_text_total (text : List Char) (s o : Nat)
    (hs : 1 ≤ s) (ho : 10 * o ≤ 3 * s) : (chunk_text text s o).isSome := by
  unfold chunk_text
  split
  · simp
  · split
    · simp
    · have hloop := chunkLoop_total text (s * 4) (o * 4) (by omega) (by omega)
        (text.length + 1) 0 [] (by omega)
      cases hc : chunkLoop text (s * 4) (o * 4) (text.length + 1) 0 [] with
      | none => rw [hc] at hloop; exact absurd hloop (by decide)
      | some ws => rfl

/-- Witness for the amended C10 at a concrete input that runs the loop. -/
theorem chunk_text_total_witness : (chunk_text (List.replicate 5 'a') 1 0).isSome :=
  chunk_text_total (List.replicate 5 'a') 1 0 (by decide) (by decide)

/-- Claim C2 (counterexample): the create_agent of memory_routes.py stores
the raw key itself, which differs from its SHA-256 hex digest. -/
theorem agent_key_sha256_claim_false : ¬ sha256CredentialClaim := by
  intro h
  have h1 := h.1 "n" "d" "private" "mem_k" "a1" "t0" []
  rw [show (create_agent_routes "n" "d" "private" "mem_k" "a1" "t0"
    []).1.api_key_hash = "mem_k" from rfl] at h1
  exact absurd h1 (by decide)

/-- Claim C2 (amended): create_agent in memory_routes.py persists the raw
key verbatim in api_key_hash, create_agent in memory/config.py persists the
SHA-256 hex digest of the key, and verify_agent_key compares the stored
value with the presented key verbatim without hashing — so a presented key
authenticates exactly when some active agent row stores that very string. -/
theorem agent_key_storage_and_verification :
    (∀ name description access apiKey agentId now agents,
      (create_agent_routes name description access apiKey agentId now
        agents).1.api_key_hash = apiKey) ∧
    (∀ name description access apiKey agentId now agents,
      (create_agent_config name description access apiKey agentId now
        agents).1.api_key_hash = sha256Hex apiKey) ∧
    (∀ key now agents,
      isOkE (verify_agent_key (some key) now agents)
        = agents.any (fun a => a.api_key_hash == key && a.is_active)) := by
  refine ⟨fun _ _ _ _ _ _ _ => rfl, fun _ _ _ _ _ _ _ => rfl, ?_⟩
  intro key now agents
  cases h : agents.find? (fun a => a.api_key_hash == key && a.is_active) with
  | none =>
    have hall := List.find?_eq_none.mp h
    have hany : agents.any (fun a => a.api_key_hash == key && a.is_active) = false := by
      rw [List.any_eq_false]
      intro a ha
      exact fun hc => hall a ha hc
    simp only [verify_agent_key, h, hany]
    rfl
  | some a =>
    have hmem := List.mem_of_find?_eq_some h
    have hp := List.find?_some h
    have hany : agents.any (fun x => x.api_key_hash == key && x.is_active) = true :=
      List.any_eq_true.mpr ⟨a, hmem, hp⟩
    simp only [verify_agent_key, h, hany]
    rfl

theorem length_filter_mono_of_imp {l : List Int} {p q : Int → Bool}
    (h : ∀ x ∈ l, p x = true → q x = true) :
    (l.filter p).length ≤ (l.filter q).length := by
  induction l with
  | nil => simp
  | cons x xs ih =>
    have ih2 := ih (fun y hy => h y (by simp [hy]))
    by_cases hx : p x = true
    · rw [List.filter_cons_of_pos hx, List.filter_cons_of_pos (h x (by simp) hx)]
      simpa using ih2
    · rw [List.filter_cons_of_neg (by simpa using hx)]
      rcases hq : q x with _ | _
      · rw [List.filter_cons_of_neg (by simp [hq])]
        exact ih2
      · rw [List.filter_cons_of_pos hq]
        exact Nat.le_succ_of_le ih2

theorem processRequests_window_bound_aux (settings : MemSettings)
    (hen : settings.rate_limit_enabled = true) :
    ∀ (times hist : List Int) (c : Int),
      times.Chain' (· ≤ ·) →
      (∀ t ∈ times.head?, c + 60 ≤ t) →
      (∀ a, windowCount hist a ≤ settings.rate_limit_per_minute) →
      ∀ a, windowCount (hist ++ processRequests settings
          (hist.filter (fun h => decide (c < h))) times) a
        ≤ settings.rate_limit_per_minute := by
  intro times
  induction times with
  | nil =>
    intro hist c _ _ hwc a
    simpa [processRequests] using hwc a
  | cons t ts ih =>
    intro hist c hchain hhead hwc a
    rw [List.chain'_cons'] at hchain
    have hct : c + 60 ≤ t := hhead t rfl
    have hkept : (hist.filter (fun h => decide (c < h))).filter
        (fun h => decide (t - 60 < h))
        = hist.filter (fun h => decide (t - 60 < h)) := by
      rw [List.filter_filter]
      apply List.filter_congr
      intro x _
      rcases hx : decide (t - 60 < x) with _ | _
      · simp
      · have : c < x := by
          have := of_decide_eq_true hx
          omega
        simp [this]
    have hstep : check_rate_limit settings
        (hist.filter (fun h => decide (c < h))) t
        = (if settings.rate_limit_per_minute ≤
            (hist.filter (fun h => decide (t - 60 < h))).length then
            (false, hist.filter (fun h => decide (t - 60 < h)))
          else (true, hist.filter (fun h => decide (t - 60 < h)) ++ [t])) := by
      rw [check_rate_limit]
      rw [if_neg (by simp [hen])]
      simp only [hkept]
    rw [processRequests]
    by_cases hfull : settings.rate_limit_per_minute ≤
        (hist.filter (fun h => decide (t - 60 < h))).length
    · rw [hstep, if_pos hfull]
      simp only [if_neg (Bool.false_ne_true)]
      have := ih hist (t - 60) hchain.2
        (fun t2 ht2 => by
          have h12 := hchain.1 t2 ht2
          omega)
        hwc a
      simpa using this
    · rw [hstep, if_neg hfull]
      simp only [eq_self_iff_true, if_true]
      have hsingle : (hist ++ [t]).filter (fun h => decide (t - 60 < h))
          = hist.filter (fun h => decide (t - 60 < h)) ++ [t] := by
        rw [List.filter_append]
        simp
      have hwc2 : ∀ a2, windowCount (hist ++ [t]) a2 ≤
          settings.rate_limit_per_minute := by
        intro a2
        unfold windowCount
        rw [List.filter_append]
        by_cases hin : (a2 ≤ t ∧ t < a2 + 60)
        · have hcount : windowCount hist a2 ≤
              (hist.filter (fun h => decide (t - 60 < h))).length := by
            apply length_filter_mono_of_imp
            intro x _ hx
            have h1 : a2 ≤ x := of_decide_eq_true (Bool.and_elim_left hx)
            have h2 : x < a2 + 60 := of_decide_eq_true (Bool.and_elim_right hx)
            apply decide_eq_true
            omega
          rw [List.length_append]
          have : (([t] : List Int).filter
              (fun x => decide (a2 ≤ x) && decide (x < a2 + 60))).length ≤ 1 := by
            apply le_trans (List.length_filter_le _ _)
            simp
          unfold windowCount at hcount
          omega
        · have : (([t] : List Int).filter
              (fun x => decide (a2 ≤ x) && decide (x < a2 + 60))) = [] := by
            rcases h1 : decide (a2 ≤ t) with _ | _
            · simp [List.filter, h1]
            · rcases h2 : decide (t < a2 + 60) with _ | _
              · simp [List.filter, h1, h2]
              · exact absurd ⟨of_decide_eq_true h1, of_decide_eq_true h2⟩ hin
          rw [this, List.length_append]
          have := hwc a2
          unfold windowCount at this
          simpa using this
      have := ih (hist ++ [t]) (t - 60) hchain.2
        (fun t2 ht2 => by
          have h12 := hchain.1 t2 ht2
          omega)
        hwc2 a
      rw [hsingle, List.append_assoc] at this
      exact this

/-- Claim C1 (code bug): with both sharing settings on, the INSERT INTO
memories_shared of ingest names columns (timestamp, scrubbed_text,
has_documents) that CREATE TABLE memories_shared does not define, so the
transaction fails and rolls back: ingest returns 500 with no Memory row, no
SharedMemory row and no vector upserts — never the rows and the
shared-collection point the claim describes.  (Independently, the shared
upserts target collection memory_shared, not memory_interactions_shared.) -/
theorem shared_ingest_insert_fails :
    ingest_interaction envC1 dbEmpty "agent-1" "hello" "call" "[]" "" []
      = some (.error 500, dbEmpty, [])
    ∧ memoriesSharedSchema.contains "scrubbed_text" = false
    ∧ memoriesSharedSchema.contains "timestamp" = false
    ∧ memoriesSharedSchema.contains "has_documents" = false :=
  ⟨rfl, rfl, rfl, rfl⟩

theorem insertRow_ok_of_valid (schema cols vals : List String) (rows : List DBRow)
    (hcols : cols.all (fun c => schema.contains c) = true)
    (hlen : (cols.length == vals.length) = true) :
    insertRow schema cols vals rows = .ok (rows ++ [cols.zip vals]) := by
  unfold insertRow
  rw [hcols, hlen]
  rfl

theorem insertRow_shared_fails (vals : List String) (rows : List DBRow) :
    insertRow memoriesSharedSchema sharedInsertCols vals rows
      = .error "no such column" := by
  have hc : (sharedInsertCols.all (fun c => memoriesSharedSchema.contains c))
      = false := by decide
  unfold insertRow
  rw [hc]
  rfl

theorem insertDocs_ok (now mid : String) :
    ∀ (docs : List (String × FileUpload × String)) (rows : List DBRow),
      ∃ rows2, insertDocs now mid docs rows = .ok rows2 := by
  intro docs
  induction docs with
  | nil => intro rows; exact ⟨rows, rfl⟩
  | cons d rest ih =>
    intro rows
    obtain ⟨did, f, ptext⟩ := d
    rw [insertDocs, insertRow_ok_of_valid memoryDocumentsSchema documentsInsertCols
      [did, mid, f.filename, f.content_type, toString f.content.length, ptext, now]
      rows (by decide) rfl]
    exact ih _

theorem commitPrecedesUpserts_nil : commitPrecedesUpserts [] := by
  intro j hj _
  exact absurd hj (by simp)

theorem commitPrecedesUpserts_cons (rest : List IngestEvent) :
    commitPrecedesUpserts (IngestEvent.commit :: rest) := by
  intro j hj hup
  cases j with
  | zero => exact Bool.noConfusion hup
  | succ j2 => exact ⟨0, Nat.succ_pos _, Nat.succ_pos _, rfl⟩

theorem ingestTxn_ok_events {env : IngestEnv} {db : MemoryDB}
    {text channel entities metadata summary piiText piiSummary : String}
    {docs : List (String × FileUpload × String)}
    {sc : List String} {se : List (List Int)}
    {db2 : MemoryDB} {evs : List IngestEvent}
    (h : ingestTxn env db text channel entities metadata summary piiText
          piiSummary docs sc se = .ok (db2, evs)) :
    evs = [] := by
  unfold ingestTxn at h
  split at h
  · exact Except.noConfusion h
  · split at h
    · exact Except.noConfusion h
    · split at h
      · split at h
        · exact Except.noConfusion h
        · rename_i heq
          rw [insertRow_shared_fails] at heq
          exact Except.noConfusion heq
      · injection h with h2
        exact congrArg Prod.snd h2.symm

theorem ingestTxn_ok_memories {env : IngestEnv} {db : MemoryDB}
    {text channel entities metadata summary piiText piiSummary : String}
    {docs : List (String × FileUpload × String)}
    {sc : List String} {se : List (List Int)}
    {db2 : MemoryDB} {evs : List IngestEvent}
    (h : ingestTxn env db text channel entities metadata summary piiText
          piiSummary docs sc se = .ok (db2, evs)) :
    ∃ row, db2.memories = db.memories ++ [row] := by
  unfold ingestTxn at h
  split at h
  · exact Except.noConfusion h
  · rename_i mems hmem
    rw [insertRow_ok_of_valid memoriesSchema memoriesInsertCols
      [env.memoryId, env.now, channel, text, summary,
       (if docs.isEmpty then "0" else "1"), "0", entities, metadata, env.now,
       env.now] db.memories (by decide) rfl] at hmem
    injection hmem with hm
    split at h
    · exact Except.noConfusion h
    · split at h
      · split at h
        · exact Except.noConfusion h
        · rename_i heq
          rw [insertRow_shared_fails] at heq
          exact Except.noConfusion heq
      · injection h with h2
        refine ⟨memoriesInsertCols.zip
          [env.memoryId, env.now, channel, text, summary,
           (if docs.isEmpty then "0" else "1"), "0", entities, metadata,
           env.now, env.now], ?_⟩
        exact (congrArg (fun p => p.1.memories) h2.symm).trans hm.symm

/-- Claim C3: in every execution of ingest, every vector upsert that is
performed is preceded in the event trace by the relational commit.  (The
shared-projection upserts, which the source places before the commit, are
never reached, because the memories_shared insert always fails first.) -/
theorem ingest_commit_before_upserts (env : IngestEnv) (db : MemoryDB)
    (agentId text channel entities metadata : String) (files : List FileUpload)
    (out : Except Nat InteractionResp × MemoryDB × List IngestEvent)
    (h : ingest_interaction env db agentId text channel entities metadata files
          = some out) :
    commitPrecedesUpserts out.2.2 := by
  simp only [ingest_interaction] at h
  split at h
  · exact Option.noConfusion h
  · split at h
    · exact Option.noConfusion h
    · split at h
      · injection h with h2
        rw [← h2]
        exact commitPrecedesUpserts_nil
      · rename_i db2 sharedEvs heq
        have hevs := ingestTxn_ok_events heq
        subst hevs
        split at h
        · injection h with h2
          rw [← h2]
          exact commitPrecedesUpserts_cons _
        · injection h with h2
          rw [← h2]
          exact commitPrecedesUpserts_cons _

/-- Witness for C3 at a concrete executed request. -/
theorem ingest_commit_before_upserts_witness :
    ∃ out, ingest_interaction envC3 dbEmpty "a1" "hello" "call" "[]" "" []
        = some out ∧ commitPrecedesUpserts out.2.2 :=
  ⟨_, rfl, ingest_commit_before_upserts envC3 dbEmpty "a1" "hello" "call" "[]"
    "" [] _ rfl⟩

theorem log_audit_ok {env : IngestEnv} (haud : env.auditFails = false)
    (agentId action : String) (rt ri : Option String) (details : String)
    (rows : List DBRow) :
    log_audit env agentId action rt ri details rows
      = .ok (rows ++ [auditInsertCols.zip
          [env.auditId, agentId, action, rt.getD "", ri.getD "", details,
           env.now]]) := by
  unfold log_audit
  rw [haud]
  exact insertRow_ok_of_valid memoryAuditLogSchema auditInsertCols
    [env.auditId, agentId, action, rt.getD "", ri.getD "", details, env.now]
    rows (by decide) rfl

theorem log_audit_fails {env : IngestEnv} (haud : env.auditFails = true)
    (agentId action : String) (rt ri : Option String) (details : String)
    (rows : List DBRow) :
    log_audit env agentId action rt ri details rows
      = .error "audit write failed" := by
  unfold log_audit
  rw [haud]
  rfl

/-- Claim C4 (counterexample): when the audit insert fails after the
primary transaction committed, ingest returns an error (the exception
propagates uncaught), not success. -/
theorem audit_failure_claim_false : ¬ auditFailureIsolatedClaim := by
  intro h
  have hx := h envC4 dbEmpty "a1" "hello" "call" "[]" "" [] _ rfl (by decide)
  exact absurd hx (by decide)

/-- Claim C4 (amended): an error raised while appending the AuditRecord is
not caught: the request fails with a 500 even though the primary relational
transaction already committed, so the Memory row remains persisted while
the response reports an error. -/
theorem audit_failure_fails_request (env : IngestEnv) (db : MemoryDB)
    (agentId text channel entities metadata : String) (files : List FileUpload)
    (out : Except Nat InteractionResp × MemoryDB × List IngestEvent)
    (haud : env.auditFails = true)
    (h : ingest_interaction env db agentId text channel entities metadata files
          = some out)
    (hc : IngestEvent.commit ∈ out.2.2) :
    isOkE out.1 = false ∧ ∃ row, out.2.1.memories = db.memories ++ [row] := by
  simp only [ingest_interaction] at h
  split at h
  · exact Option.noConfusion h
  · split at h
    · exact Option.noConfusion h
    · split at h
      · injection h with h2
        rw [← h2] at hc
        exact absurd hc (by simp)
      · rename_i db2 sharedEvs heq
        split at h
        · injection h with h2
          rw [← h2]
          exact ⟨rfl, ingestTxn_ok_memories heq⟩
        · rename_i auditRows haudit
          rw [log_audit_fails haud] at haudit
          exact Except.noConfusion haudit

/-- Witness for the amended C4 at a concrete executed request. -/
theorem audit_failure_fails_request_witness :
    ∃ out, ingest_interaction envC4 dbEmpty "a1" "hello" "call" "[]" "" []
        = some out ∧
      (isOkE out.1 = false ∧ ∃ row, out.2.1.memories = dbEmpty.memories ++ [row]) :=
  ⟨_, rfl, audit_failure_fails_request envC4 dbEmpty "a1" "hello" "call" "[]"
    "" [] _ rfl rfl (by decide)⟩

theorem ingestTxn_not_shared_ok (env : IngestEnv) (db : MemoryDB)
    (text channel entities metadata summary piiText piiSummary : String)
    (docs : List (String × FileUpload × String))
    (sc : List String) (se : List (List Int))
    (hflag : (env.settings.pii_scrubbing_enabled &&
        env.settings.auto_share_scrubbed) = false) :
    ∃ rows2, ingestTxn env db text channel entities metadata summary piiText
        piiSummary docs sc se
      = .ok ({ db with
          memories := db.memories ++ [memoriesInsertCols.zip
            [env.memoryId, env.now, channel, text, summary,
             (if docs.isEmpty then "0" else "1"), "0", entities, metadata,
             env.now, env.now]],
          memory_documents := rows2 }, []) := by
  obtain ⟨rows2, hdocs⟩ := insertDocs_ok env.now env.memoryId docs db.memory_documents
  refine ⟨rows2, ?_⟩
  unfold ingestTxn
  rw [insertRow_ok_of_valid memoriesSchema memoriesInsertCols
    [env.memoryId, env.now, channel, text, summary,
     (if docs.isEmpty then "0" else "1"), "0", entities, metadata, env.now,
     env.now] db.memories (by decide) rfl, hdocs, hflag]
  rfl

/-- Claim C7 (counterexample): neither ingest handler validates the channel
value; a request with channel equal to the empty string succeeds and a
Memory row is created. -/
theorem empty_channel_rejected_claim_false : ¬ emptyChannelRejectedClaim := by
  intro h
  have hx := h envC7 dbEmpty "a1" "hello" "[]" "" [] _ rfl
  exact absurd hx.1 (by decide)

/-- Claim C7 (amended): ingest performs no emptiness check on channel: with
scrubbing off and a healthy audit log, an ingest with channel equal to the
empty string returns success, and the inserted Memory row carries the pair
(channel, "").  Only a missing form field is rejected, by FastAPI
validation outside the handler. -/
theorem empty_channel_accepted (env : IngestEnv) (db : MemoryDB)
    (agentId text entities metadata : String) (files : List FileUpload)
    (out : Except Nat InteractionResp × MemoryDB × List IngestEvent)
    (hpii : env.settings.pii_scrubbing_enabled = false)
    (haud : env.auditFails = false)
    (h : ingest_interaction env db agentId text "" entities metadata files
          = some out) :
    (∃ resp, out.1 = .ok resp ∧ resp.channel = "") ∧
      ∃ row, out.2.1.memories = db.memories ++ [row] ∧ ("channel", "") ∈ row := by
  have hflag : (env.settings.pii_scrubbing_enabled &&
      env.settings.auto_share_scrubbed) = false := by rw [hpii]; rfl
  obtain ⟨rows2, htxn⟩ := ingestTxn_not_shared_ok env db text ""
    entities metadata (env.summarize (compositeText env text files)) "" ""
    (parsedDocsOf env files) [] [] hflag
  simp only [ingest_interaction, hpii, Bool.false_eq_true, if_false,
    List.isEmpty_nil, if_true] at h
  split at h
  · exact Option.noConfusion h
  · rename_i chunks hchunks
    rw [htxn] at h
    dsimp only at h
    rw [log_audit_ok haud] at h
    dsimp only at h
    injection h with h2
    rw [← h2]
    constructor
    · exact ⟨_, rfl, rfl⟩
    · refine ⟨memoriesInsertCols.zip
        [env.memoryId, env.now, "", text,
         env.summarize (compositeText env text files),
         (if (parsedDocsOf env files).isEmpty then "0" else "1"), "0",
         entities, metadata, env.now, env.now], rfl, ?_⟩
      simp [memoriesInsertCols]

/-- Witness for the amended C7 at a concrete executed request. -/
theorem empty_channel_accepted_witness :
    ∃ out, ingest_interaction envC7 dbEmpty "a1" "hello" "" "[]" "" []
        = some out ∧
      ((∃ resp, out.1 = .ok resp ∧ resp.channel = "") ∧
        ∃ row, out.2.1.memories = dbEmpty.memories ++ [row] ∧
          ("channel", "") ∈ row) :=
  ⟨_, rfl, empty_channel_accepted envC7 dbEmpty "a1" "hello" "[]" "" [] _
    rfl rfl rfl⟩

/-- Claim C5 (counterexample): the ingest handler mounted by server.py
(memory_routes.py) never consults check_rate_limit: with limiting enabled
and capacity 0 a request still succeeds and creates a Memory row. -/
theorem rate_limit_claim_false : ¬ rateLimitEnforcedClaim := by
  intro h
  have hx := h envC5 dbEmpty "a1" "hello" "call" "[]" "" [] _ rfl rfl rfl
  exact absurd hx.1 (by decide)

/-- Claim C5 (amended): check_rate_limit itself enforces the window bound —
with limiting enabled and wall-clock-ordered requests, at most
rate_limit_per_minute requests are admitted per agent within any 60-second
half-open window — and the memory/agent.py ingest consults it, rejecting
with 429 and no side effects; but the ingest mounted by server.py performs
no rate-limit check at all (see the counterexample). -/
theorem rate_limit_window_and_gate :
    (∀ (settings : MemSettings), settings.rate_limit_enabled = true →
      ∀ (times : List Int), times.Chain' (· ≤ ·) →
      ∀ a, windowCount (processRequests settings [] times) a
        ≤ settings.rate_limit_per_minute) ∧
    (∀ (env : IngestEnv) (rateWindow : List Int) (tNow : Int) (db : MemoryDB)
      (agentId text channel entities metadata : String)
      (files : List FileUpload),
      (check_rate_limit env.settings rateWindow tNow).1 = false →
      agent_ingest_interaction env rateWindow tNow db agentId text channel
          entities metadata files
        = (some (.error 429, db, []),
           (check_rate_limit env.settings rateWindow tNow).2)) := by
  constructor
  · intro settings hen times hmono a
    have haux := processRequests_window_bound_aux settings hen times []
      ((times.head?.getD 0) - 60) hmono ?_ ?_ a
    · simpa using haux
    · intro t ht
      cases times with
      | nil => exact absurd ht (by simp)
      | cons t0 ts =>
        rw [List.head?_cons, Option.mem_some_iff] at ht
        subst ht
        simp
    · intro a2
      simp [windowCount]
  · intro env rateWindow tNow db agentId text channel entities metadata files hrej
    simp only [agent_ingest_interaction]
    rw [hrej]
    rfl

/-- Witness for the amended C5: three in-order requests against capacity 1
with the gate rejecting a request. -/
theorem rate_limit_window_and_gate_witness :
    windowCount (processRequests envC5w.settings [] [0, 10, 20]) 0
        ≤ envC5w.settings.rate_limit_per_minute ∧
      agent_ingest_interaction envC5w [5] 10 dbEmpty "a1" "hello" "call" "[]"
          "" []
        = (some (.error 429, dbEmpty, []), [5]) :=
  ⟨rate_limit_window_and_gate.1 envC5w.settings rfl [0, 10, 20]
     (by simp [List.chain'_cons, List.chain'_singleton]) 0,
   rate_limit_window_and_gate.2 envC5w [5] 10 dbEmpty "a1" "hello" "call" "[]"
     "" [] (by decide)⟩

/-- Claim C6 (counterexample): original_memory_id is declared ON DELETE
CASCADE and connections enable foreign keys, so deleting the origin deletes
its shared projection as well. -/
theorem shared_survives_delete_claim_false : ¬ sharedSurvivesDeleteClaim := by
  intro h
  exact absurd (h dbC6 "m1") (by decide)

/-- Claim C6 (amended): deleting an origin Memory row cascades to
memories_shared (ON DELETE CASCADE under PRAGMA foreign_keys = ON): a
shared row survives the deletion of memory mid exactly when its
original_memory_id is not mid. -/
theorem delete_memory_cascades (db : MemoryDB) (mid : String) (r : DBRow)
    (hr : r ∈ db.memories_shared) :
    r ∈ (deleteMemoryCascade db mid).memories_shared ↔
      r.lookup "original_memory_id" ≠ some mid := by
  unfold deleteMemoryCascade
  simp only [List.mem_filter, hr, true_and]
  constructor
  · intro hb
    rcases hb2 : (r.lookup "original_memory_id" == some mid) with _ | _
    · intro hcontra
      rw [hcontra] at hb2
      simp at hb2
    · rw [hb2] at hb
      exact Bool.noConfusion hb
  · intro hne
    rcases hb2 : (r.lookup "original_memory_id" == some mid) with _ | _
    · rfl
    · exact absurd (by simpa using hb2) hne

/-- Witness for the amended C6: a shared row of another origin survives. -/
theorem delete_memory_cascades_witness :
    [("original_memory_id", "m2")] ∈
      (deleteMemoryCascade dbC6w "m1").memories_shared :=
  (delete_memory_cascades dbC6w "m1" [("original_memory_id", "m2")]
    (by decide)).mpr (by decide)

